import Mathlib

/-!
Shallow embedding of `bitly-python` (files `src/bitly_lib.py`, the historical
revision, and `src/src/bitly_lib.py`, the current revision) together with
proofs about the claims of the specification.

JSON values are modelled by an inductive type; Python numbers (int and float)
are both modelled as exact rationals; Python dictionaries are modelled as
association lists with in-place update (preserving insertion order, as Python
dicts do); Python exceptions are modelled with `Except`.
-/

namespace Bitly

/-- JSON values as produced by `json.loads`. Python ints and floats are both
modelled as rationals. -/
inductive Json where
  | null
  | bool (b : Bool)
  | num (q : ℚ)
  | str (s : String)
  | arr (elems : List Json)
  | obj (members : List (String × Json))

mutual

/-- Decidable equality for the nested `Json` type. -/
def Json.decEq : (a b : Json) → Decidable (a = b)
  | .null, .null => .isTrue rfl
  | .bool a, .bool b =>
      if h : a = b then .isTrue (by rw [h])
      else .isFalse (by intro hh; cases hh; exact h rfl)
  | .num a, .num b =>
      if h : a = b then .isTrue (by rw [h])
      else .isFalse (by intro hh; cases hh; exact h rfl)
  | .str a, .str b =>
      if h : a = b then .isTrue (by rw [h])
      else .isFalse (by intro hh; cases hh; exact h rfl)
  | .arr xs, .arr ys =>
      match Json.decEqList xs ys with
      | .isTrue h => .isTrue (by rw [h])
      | .isFalse h => .isFalse (by intro hh; cases hh; exact h rfl)
  | .obj xs, .obj ys =>
      match Json.decEqObj xs ys with
      | .isTrue h => .isTrue (by rw [h])
      | .isFalse h => .isFalse (by intro hh; cases hh; exact h rfl)
  | .null, .bool _ => .isFalse (by intro h; cases h)
  | .null, .num _ => .isFalse (by intro h; cases h)
  | .null, .str _ => .isFalse (by intro h; cases h)
  | .null, .arr _ => .isFalse (by intro h; cases h)
  | .null, .obj _ => .isFalse (by intro h; cases h)
  | .bool _, .null => .isFalse (by intro h; cases h)
  | .bool _, .num _ => .isFalse (by intro h; cases h)
  | .bool _, .str _ => .isFalse (by intro h; cases h)
  | .bool _, .arr _ => .isFalse (by intro h; cases h)
  | .bool _, .obj _ => .isFalse (by intro h; cases h)
  | .num _, .null => .isFalse (by intro h; cases h)
  | .num _, .bool _ => .isFalse (by intro h; cases h)
  | .num _, .str _ => .isFalse (by intro h; cases h)
  | .num _, .arr _ => .isFalse (by intro h; cases h)
  | .num _, .obj _ => .isFalse (by intro h; cases h)
  | .str _, .null => .isFalse (by intro h; cases h)
  | .str _, .bool _ => .isFalse (by intro h; cases h)
  | .str _, .num _ => .isFalse (by intro h; cases h)
  | .str _, .arr _ => .isFalse (by intro h; cases h)
  | .str _, .obj _ => .isFalse (by intro h; cases h)
  | .arr _, .null => .isFalse (by intro h; cases h)
  | .arr _, .bool _ => .isFalse (by intro h; cases h)
  | .arr _, .num _ => .isFalse (by intro h; cases h)
  | .arr _, .str _ => .isFalse (by intro h; cases h)
  | .arr _, .obj _ => .isFalse (by intro h; cases h)
  | .obj _, .null => .isFalse (by intro h; cases h)
  | .obj _, .bool _ => .isFalse (by intro h; cases h)
  | .obj _, .num _ => .isFalse (by intro h; cases h)
  | .obj _, .str _ => .isFalse (by intro h; cases h)
  | .obj _, .arr _ => .isFalse (by intro h; cases h)

/-- Decidable equality for lists of `Json`. -/
def Json.decEqList : (xs ys : List Json) → Decidable (xs = ys)
  | [], [] => .isTrue rfl
  | [], _ :: _ => .isFalse (by intro h; cases h)
  | _ :: _, [] => .isFalse (by intro h; cases h)
  | x :: xs, y :: ys =>
      match Json.decEq x y with
      | .isTrue h1 =>
          match Json.decEqList xs ys with
          | .isTrue h2 => .isTrue (by rw [h1, h2])
          | .isFalse h2 => .isFalse (by intro hh; cases hh; exact h2 rfl)
      | .isFalse h1 => .isFalse (by intro hh; cases hh; exact h1 rfl)

/-- Decidable equality for JSON object member lists. -/
def Json.decEqObj : (xs ys : List (String × Json)) → Decidable (xs = ys)
  | [], [] => .isTrue rfl
  | [], _ :: _ => .isFalse (by intro h; cases h)
  | _ :: _, [] => .isFalse (by intro h; cases h)
  | (k1, v1) :: xs, (k2, v2) :: ys =>
      if hk : k1 = k2 then
        match Json.decEq v1 v2 with
        | .isTrue hv =>
            match Json.decEqObj xs ys with
            | .isTrue h2 => .isTrue (by rw [hk, hv, h2])
            | .isFalse h2 => .isFalse (by intro hh; cases hh; exact h2 rfl)
        | .isFalse hv => .isFalse (by intro hh; cases hh; exact hv rfl)
      else .isFalse (by intro hh; cases hh; exact hk rfl)

end

instance : DecidableEq Json := Json.decEq

/-- Python exceptions raised by the library code. -/
inductive PyErr where
  | valueError (msg : String)
  | typeError (msg : String)
  | keyError (key : String)
  | attributeError (msg : String)
  | httpError (code : Nat)
deriving DecidableEq

instance {ε α : Type} [DecidableEq ε] [DecidableEq α] :
    DecidableEq (Except ε α) := fun a b =>
  match a, b with
  | .ok x, .ok y =>
      if h : x = y then .isTrue (by rw [h])
      else .isFalse (by intro hh; cases hh; exact h rfl)
  | .error e, .error e' =>
      if h : e = e' then .isTrue (by rw [h])
      else .isFalse (by intro hh; cases hh; exact h rfl)
  | .ok _, .error _ => .isFalse (by intro h; cases h)
  | .error _, .ok _ => .isFalse (by intro h; cases h)

/-! ### Python dictionary model: association lists with in-place update -/

/-- `d[k] = v` on a Python dict: update the value in place if the key is
present, else append the new pair at the end (insertion order). -/
def dictSet {K V : Type} [DecidableEq K] : List (K × V) → K → V → List (K × V)
  | [], k, v => [(k, v)]
  | (k', v') :: rest, k, v =>
      if k' = k then (k, v) :: rest else (k', v') :: dictSet rest k v

/-- `d.get(k)`: first binding of `k` in the association list. -/
def dictGet {K V : Type} [DecidableEq K] : List (K × V) → K → Option V
  | [], _ => none
  | (k', v') :: rest, k => if k' = k then some v' else dictGet rest k

/-- The keys of a dict, in order. -/
def dictKeys {K V : Type} (d : List (K × V)) : List K := d.map Prod.fst

/-- `dict(zip(ks, vs))`: fold the pairs into a dict (later pairs overwrite
earlier ones with the same key, first-occurrence position is kept). -/
def dictFromZip {K V : Type} [DecidableEq K] (ks : List K) (vs : List V) :
    List (K × V) :=
  (ks.zip vs).foldl (fun d kv => dictSet d kv.1 kv.2) []

/-- Value bound to `k` by the LAST pair of an arbitrary pair list mentioning
`k` (matches what folding `dictSet` over the list produces). -/
def assocLast {K V : Type} [DecidableEq K] : List (K × V) → K → Option V
  | [], _ => none
  | (k', v') :: rest, k =>
      match assocLast rest k with
      | some v => some v
      | none => if k' = k then some v' else none

/-! ### Python operation semantics -/

/-- Substring search helper: index of the first position at or after `i`
where `pat` is a prefix of the remaining characters. -/
def findSubAux (pat : List Char) : List Char → Nat → Option Nat
  | [], i => if pat.isPrefixOf ([] : List Char) then some i else none
  | c :: t, i => if pat.isPrefixOf (c :: t) then some i else findSubAux pat t (i + 1)

/-- Python `s.find(pat)`: index of the first occurrence of `pat` in `s`,
`-1` if there is none. -/
def pyFind (s pat : String) : Int :=
  match findSubAux pat.data s.data 0 with
  | some i => (i : Int)
  | none => -1

/-- Python slicing `s[i:]` (negative start counts from the end, an
out-of-range start yields the empty string; slicing never raises). -/
def pySliceFrom (s : String) (i : Int) : String :=
  if i < 0 then ⟨s.data.drop ((s.data.length : Int) + i).toNat⟩
  else ⟨s.data.drop i.toNat⟩

/-- Python `key in v` for a string `key`: key membership for dicts, element
membership for lists, substring test for strings, `TypeError` otherwise. -/
def pyContains (v : Json) (key : String) : Except PyErr Bool :=
  match v with
  | .obj members => .ok (members.any (fun kv => kv.1 = key))
  | .arr elems => .ok (elems.any (fun e => e = Json.str key))
  | .str s => .ok (decide (0 ≤ pyFind s key))
  | _ => .error (.typeError "argument is not iterable")

/-- Python `v[key]` for a string `key`: dict lookup (`KeyError` when absent),
`TypeError` on anything that is not a dict. -/
def pyGetItem (v : Json) (key : String) : Except PyErr Json :=
  match v with
  | .obj members =>
      match members.lookup key with
      | some x => .ok x
      | none => .error (.keyError key)
  | _ => .error (.typeError "value is not subscriptable by a string")

/-- Python `for x in v`: list elements, the one-character strings of a
string, the keys of a dict; `TypeError` otherwise. -/
def pyIter (v : Json) : Except PyErr (List Json) :=
  match v with
  | .arr elems => .ok elems
  | .str s => .ok (s.data.map (fun c => Json.str (String.singleton c)))
  | .obj members => .ok (members.map (fun kv => Json.str kv.1))
  | _ => .error (.typeError "object is not iterable")

/-- Python `s.lower()` on a string (ASCII model). -/
def strLower (s : String) : String := ⟨s.data.map Char.toLower⟩

/-- Python `v.lower()`: only strings have the attribute. -/
def pyLower (v : Json) : Except PyErr String :=
  match v with
  | .str s => .ok (strLower s)
  | _ => .error (.attributeError "object has no attribute lower")

/-- Python `v / d` for a number `d` (Python bools are ints). Division of a
Python int by an int yields an (exact, here rational) float. -/
def pyDivNum (v : Json) (d : ℚ) : Except PyErr ℚ :=
  match v with
  | .num q => .ok (q / d)
  | .bool b => .ok ((if b then 1 else 0) / d)
  | _ => .error (.typeError "unsupported operand type for division")

/-! ### `bitly_lib.py` constants and the bitlink normalizer -/

/-- `HTML_PREFIX_END = '://'` — delimiter between url scheme and domain. -/
def HTML_PREFIX_END : String := "://"

/-- `NUM_DAYS = 30` — number of days to average over. -/
def NUM_DAYS : ℚ := 30

/-- `parse_bitlink` (`src/src/bitly_lib.py` lines 222-234, identical in the
historical revision): strip a URL of the scheme and `'://'` delimiter.
`find` yields `-1` when the delimiter is absent. -/
def parse_bitlink (bitlink_url : String) : String :=
  let prefix_start_pos := pyFind bitlink_url HTML_PREFIX_END
  let prefix_end_pos := prefix_start_pos + (HTML_PREFIX_END.length : Int)
  pySliceFrom bitlink_url prefix_end_pos

/-! ### `urllib.parse.quote` -/

/-- UTF-8 encoding of one character, as the list of its byte values. -/
def utf8EncodeChar (c : Char) : List Nat :=
  let n := c.toNat
  if n < 0x80 then [n]
  else if n < 0x800 then [0xC0 + n / 64, 0x80 + n % 64]
  else if n < 0x10000 then
    [0xE0 + n / 4096, 0x80 + (n / 64) % 64, 0x80 + n % 64]
  else
    [0xF0 + n / 262144, 0x80 + (n / 4096) % 64, 0x80 + (n / 64) % 64,
     0x80 + n % 64]

/-- The byte values `urllib.parse.quote` never quotes: ASCII letters, digits
and `'_'`, `'.'`, `'-'`, `'~'`. -/
def isAlwaysSafe (b : Nat) : Bool :=
  (65 ≤ b && b ≤ 90) || (97 ≤ b && b ≤ 122) || (48 ≤ b && b ≤ 57) ||
  b == 95 || b == 46 || b == 45 || b == 126

/-- Uppercase hex digit for a value below 16. -/
def hexDigit (n : Nat) : Char :=
  if n < 10 then Char.ofNat (48 + n) else Char.ofNat (55 + n)

/-- Percent-encode one byte unless it is always-safe or in `safe`. -/
def quoteByte (safe : List Nat) (b : Nat) : List Char :=
  if isAlwaysSafe b || safe.contains b then [Char.ofNat b]
  else ['%', hexDigit (b / 16), hexDigit (b % 16)]

/-- `urllib.parse.quote(s)` with the DEFAULT `safe='/'` parameter (byte 47),
as called on line 74 of `src/src/bitly_lib.py`: the slash is in the safe set
and is therefore NOT percent-encoded. -/
def quote (s : String) : String :=
  ⟨(s.data.flatMap utf8EncodeChar).flatMap (quoteByte [47])⟩

/-! ### Response validators (`src/src/bitly_lib.py` lines 171-203; the
historical revision's validators are textually identical) -/

/-- Loop body of `validate_bitlinks_response` (lines 181-186): each element
must contain a `'link'` member and that member must be a string. -/
def checkLinkObjs : List Json → Except PyErr Unit
  | [] => .ok ()
  | link_obj :: rest => do
      let has ← pyContains link_obj "link"
      if !has then
        throw (.valueError "\"link\" field not in data retrieved from Bitly")
      let l ← pyGetItem link_obj "link"
      match l with
      | .str _ => checkLinkObjs rest
      | _ => throw (.typeError "\"link\" field data type from Bitly is incorrect")

/-- `validate_bitlinks_response` (lines 171-186). -/
def validate_bitlinks_response (response : Json) : Except PyErr Unit := do
  let has ← pyContains response "links"
  if !has then
    throw (.valueError "\"links\" field not in data retrieved from Bitly")
  let links ← pyGetItem response "links"
  let objs ← pyIter links
  checkLinkObjs objs

/-- Loop body of `validate_country_response` (lines 197-203): each element
must contain a `'value'` member and a `'clicks'` member. No check of the
TYPE of `'clicks'` is performed. -/
def checkCountryObjs : List Json → Except PyErr Unit
  | [] => .ok ()
  | country_obj :: rest => do
      let hasValue ← pyContains country_obj "value"
      if !hasValue then
        throw (.valueError "\"value\" field not in data retrieved from Bitly")
      let hasClicks ← pyContains country_obj "clicks"
      if !hasClicks then
        throw (.valueError "\"clicks\" field not in data retrieved from Bitly")
      checkCountryObjs rest

/-- `validate_country_response` (lines 188-203). -/
def validate_country_response (response : Json) : Except PyErr Unit := do
  let has ← pyContains response "metrics"
  if !has then
    throw (.valueError "\"metrics\" field not in data retrieved from Bitly")
  let metrics ← pyGetItem response "metrics"
  let objs ← pyIter metrics
  checkCountryObjs objs

/-! ### The network environment

The upstream Bitly API is modelled as an environment. Each fetch result is
`Except PyErr (Option Json)`: `.error` models `tornado.httpclient.HTTPError`
raised for a non-2xx status, `.ok none` models a 2xx response whose body is
NOT parseable as JSON (`json.loads` raises and the caller substitutes `{}`),
and `.ok (some j)` models a 2xx response whose body parses to `j`. -/

/-- One request's upstream behaviour. -/
abbrev FetchResult := Except PyErr (Option Json)

/-- The upstream API as seen by one aggregation request: the `/v4/user`
response, the `/v4/groups/{guid}/bitlinks` response per guid, and the
`/v4/bitlinks/{bitlink}/countries` response per encoded bitlink. -/
structure Env where
  userFetch : FetchResult
  bitlinksFetch : String → FetchResult
  countryFetch : String → FetchResult

/-- `async_http_get_json` (`src/src/bitly_lib.py` lines 128-150): propagate a
fetch exception; on an unparseable body log and return the initial `{}`. -/
def async_http_get_json (fetchResult : FetchResult) : Except PyErr Json := do
  let body ← fetchResult
  pure (body.getD (Json.obj []))

/-! ### The current-revision pipeline (`src/src/bitly_lib.py`) -/

/-- Inner dictionary of a `MetricsResult`: country name (the raw JSON value
taken from the response) to average daily clicks. -/
abbrev CountryDict := List (Json × ℚ)

/-- `MetricsResult`: encoded bitlink to its country dictionary. -/
abbrev MetricsResult := List (String × CountryDict)

/-- `async_get_group_guid` (lines 42-59): fetch `/v4/user`, require a
`'default_group_guid'` member of string type. -/
def async_get_group_guid (env : Env) : Except PyErr String := do
  let response ← async_http_get_json env.userFetch
  let has ← pyContains response "default_group_guid"
  if !has then
    throw (.valueError "\"default_group_guid\" not in data retrieved from Bitly")
  let g ← pyGetItem response "default_group_guid"
  match g with
  | .str s => pure s
  | _ => throw (.typeError "\"default_group_guid\" from Bitly has invalid type")

/-- Loop of `async_get_bitlinks` (lines 72-75): normalize each link with
`parse_bitlink` and percent-encode it with `urllib.parse.quote`. The link
value must be a string for `.find` to exist (validation guarantees this). -/
def build_encoded_bitlinks (acc : List String) :
    List Json → Except PyErr (List String)
  | [] => .ok acc
  | link_obj :: rest => do
      let l ← pyGetItem link_obj "link"
      match l with
      | .str s => build_encoded_bitlinks (acc ++ [quote (parse_bitlink s)]) rest
      | _ => throw (.attributeError "object has no attribute find")

/-- `async_get_bitlinks` (lines 61-76). -/
def async_get_bitlinks (env : Env) (group_guid : String) :
    Except PyErr (List String) := do
  let response ← async_http_get_json (env.bitlinksFetch group_guid)
  validate_bitlinks_response response
  let links ← pyGetItem response "links"
  let objs ← pyIter links
  build_encoded_bitlinks [] objs

/-- `tornado.gen.multi` (line 98): all child futures run concurrently and
complete in some order `completionOrder`, but the returned list is in the
same order as the input list regardless of the completion order; a raised
child exception propagates. -/
def genMulti {α : Type} (_completionOrder : List Nat)
    (futures : List (Except PyErr α)) : Except PyErr (List α) :=
  futures.mapM id

/-- Metrics loop of `async_get_country_counts` (lines 120-124): for each
country entry read `'value'` and `'clicks'`; keep the entry when no filter
is set or when the lowercased name equals the (lowercased) filter; store
`clicks / NUM_DAYS` under the ORIGINAL name. -/
def process_metrics (lcase_country : Option String) (inner : CountryDict) :
    List Json → Except PyErr CountryDict
  | [] => .ok inner
  | country_obj :: rest => do
      let country_name ← pyGetItem country_obj "value"
      let country_clicks ← pyGetItem country_obj "clicks"
      match lcase_country with
      | none => do
          let v ← pyDivNum country_clicks NUM_DAYS
          process_metrics none (dictSet inner country_name v) rest
      | some lc => do
          let lowered ← pyLower country_name
          if lc = lowered then do
            let v ← pyDivNum country_clicks NUM_DAYS
            process_metrics (some lc) (dictSet inner country_name v) rest
          else
            process_metrics (some lc) inner rest

/-- Per-bitlink body of the fan-in loop (lines 108-124): substitute `{}` for
an unparseable body, then validate — NOTE that `validate_country_response`
is called OUTSIDE the `try`/`except`, so its exception propagates — then
build the country dictionary. -/
def bitlink_entry (body : Option Json) (lcase_country : Option String) :
    Except PyErr CountryDict := do
  let json_country_data := body.getD (Json.obj [])
  validate_country_response json_country_data
  let metrics ← pyGetItem json_country_data "metrics"
  let objs ← pyIter metrics
  process_metrics lcase_country [] objs

/-- Fan-in loop over `bitlink_to_country_future.items()` (lines 107-124):
`bitlinks_data[encoded_bitlink] = {}` then the metrics loop, i.e. the
bitlink's key is bound to the country dictionary built for it. -/
def process_bitlinks (lcase_country : Option String)
    (bitlinks_data : MetricsResult) :
    List (String × Option Json) → Except PyErr MetricsResult
  | [] => .ok bitlinks_data
  | (encoded_bitlink, body) :: rest => do
      let inner ← bitlink_entry body lcase_country
      process_bitlinks lcase_country
        (dictSet bitlinks_data encoded_bitlink inner) rest

/-- `async_get_country_counts` (lines 78-126): fan out all metric fetches
with `tornado.gen.multi`, zip the bitlinks with the responses (which are in
input order), and fold the per-bitlink entries into the result. -/
def async_get_country_counts (env : Env) (completionOrder : List Nat)
    (encoded_bitlinks_list : List String) (country : Option String) :
    Except PyErr MetricsResult := do
  let responses ← genMulti completionOrder
    (encoded_bitlinks_list.map env.countryFetch)
  let lcase_country := country.map strLower
  let bitlink_to_country_future := dictFromZip encoded_bitlinks_list responses
  process_bitlinks lcase_country [] bitlink_to_country_future

/-- `async_get_metrics` (lines 21-40): the three pipeline stages. -/
def async_get_metrics (env : Env) (completionOrder : List Nat)
    (country : Option String) : Except PyErr MetricsResult := do
  let group_guid ← async_get_group_guid env
  let encoded_bitlinks_list ← async_get_bitlinks env group_guid
  async_get_country_counts env completionOrder encoded_bitlinks_list country

/-! ### The historical revision (`src/bitly_lib.py` lines 66-91)

`async_get_country_counts` of the historical revision: sequential fetches,
no country filter, and — crucially — `bitlinks_data[encoded_bitlink] = {}`
INSIDE the metrics loop (line 89), so every loop iteration replaces the
bitlink's dictionary with a fresh one holding only the current entry. -/

/-- Metrics loop of the historical `async_get_country_counts` (lines 86-90). -/
def old_process_metrics (encoded_bitlink : String)
    (bitlinks_data : MetricsResult) :
    List Json → Except PyErr MetricsResult
  | [] => .ok bitlinks_data
  | country_obj :: rest => do
      let country_str ← pyGetItem country_obj "value"
      let country_clicks ← pyGetItem country_obj "clicks"
      let v ← pyDivNum country_clicks NUM_DAYS
      old_process_metrics encoded_bitlink
        (dictSet bitlinks_data encoded_bitlink (dictSet [] country_str v)) rest

/-- Outer loop of the historical `async_get_country_counts` (lines 82-90). -/
def old_country_counts_loop (env : Env) (bitlinks_data : MetricsResult) :
    List String → Except PyErr MetricsResult
  | [] => .ok bitlinks_data
  | encoded_bitlink :: rest => do
      let body ← env.countryFetch encoded_bitlink
      let response := body.getD (Json.obj [])
      validate_country_response response
      let metrics ← pyGetItem response "metrics"
      let objs ← pyIter metrics
      let d ← old_process_metrics encoded_bitlink bitlinks_data objs
      old_country_counts_loop env d rest

/-- The historical `async_get_country_counts` (lines 66-91). -/
def old_async_get_country_counts (env : Env)
    (encoded_bitlinks_list : List String) : Except PyErr MetricsResult :=
  old_country_counts_loop env [] encoded_bitlinks_list

/-! ### Concrete payloads and environments used for evaluation -/

/-- A country metrics entry `{"value": name, "clicks": clicks}`. -/
def mkCountryObj (name : String) (clicks : ℚ) : Json :=
  Json.obj [("value", Json.str name), ("clicks", Json.num clicks)]

/-- A metrics response with a single country entry. -/
def mkCountryResp (name : String) (clicks : ℚ) : Json :=
  Json.obj [("metrics", Json.arr [mkCountryObj name clicks])]

/-- A metrics response with two country entries, US=60 then FR=30. -/
def respUSFR : Json :=
  Json.obj [("metrics", Json.arr [mkCountryObj "US" 60, mkCountryObj "FR" 30])]

/-- The country name of a well-formed metrics entry. -/
def entryValue (o : Json) : String :=
  match pyGetItem o "value" with
  | .ok (Json.str s) => s
  | _ => ""

/-- The click count of a well-formed metrics entry. -/
def entryClicks (o : Json) : ℚ :=
  match pyGetItem o "clicks" with
  | .ok (Json.num q) => q
  | _ => 0

/-- Environment where bitlink `"a"` returns a 200 response with an
unparseable body and every other bitlink a valid single-entry response. -/
def envParseFail : Env where
  userFetch := .ok (some (Json.obj []))
  bitlinksFetch := fun _ => .ok (some (Json.obj []))
  countryFetch := fun b =>
    if b = "a" then .ok none else .ok (some (mkCountryResp "US" 60))

/-- Environment where bitlinks A, B, C return distinct valid responses. -/
def envABC : Env where
  userFetch := .ok (some (Json.obj []))
  bitlinksFetch := fun _ => .ok (some (Json.obj []))
  countryFetch := fun b =>
    if b = "A" then .ok (some (mkCountryResp "US" 60))
    else if b = "B" then .ok (some (mkCountryResp "FR" 30))
    else .ok (some (mkCountryResp "DE" 90))

/-- Environment whose user response lacks `default_group_guid`. -/
def envBadGuid : Env where
  userFetch := .ok (some (Json.obj []))
  bitlinksFetch := fun _ => .ok (some (Json.obj []))
  countryFetch := fun _ => .ok (some (Json.obj []))

/-- Environment with a valid guid but one malformed link record in the
group's link list (a numeric `link` field). -/
def envBadLink : Env where
  userFetch := .ok (some (Json.obj [("default_group_guid", Json.str "g1")]))
  bitlinksFetch := fun _ => .ok (some (Json.obj [("links",
    Json.arr [Json.obj [("link", Json.num 5)]])]))
  countryFetch := fun _ => .ok (some (Json.obj []))

/-- Environment whose group has the single link `https://bit.ly/abc123`. -/
def envOneLink : Env where
  userFetch := .ok (some (Json.obj [("default_group_guid", Json.str "g1")]))
  bitlinksFetch := fun _ => .ok (some (Json.obj [("links",
    Json.arr [Json.obj [("link", Json.str "https://bit.ly/abc123")]])]))
  countryFetch := fun _ => .ok (some (mkCountryResp "US" 60))

/-- Environment where every bitlink's response has the two entries of
`respUSFR`. -/
def envTwoEntries : Env where
  userFetch := .ok (some (Json.obj []))
  bitlinksFetch := fun _ => .ok (some (Json.obj []))
  countryFetch := fun _ => .ok (some respUSFR)

/-- Expected `MetricsResult` for `envABC` over `["A", "B", "C"]` (the stored
values are the unreduced quotients the code computes; `60 / NUM_DAYS = 2`
and so on). -/
def mABC : MetricsResult :=
  [("A", [(Json.str "US", 60 / NUM_DAYS)]), ("B", [(Json.str "FR", 30 / NUM_DAYS)]),
   ("C", [(Json.str "DE", 90 / NUM_DAYS)])]

/-- Expected `MetricsResult` for `envABC` over `["A", "B", "A"]`. -/
def mAB : MetricsResult :=
  [("A", [(Json.str "US", 60 / NUM_DAYS)]), ("B", [(Json.str "FR", 30 / NUM_DAYS)])]

/-- Country names for the `envABC` bitlinks, as a function. -/
def nameABC : String → String :=
  fun b => if b = "A" then "US" else if b = "B" then "FR" else "DE"

/-- Click counts for the `envABC` bitlinks, as a function. -/
def clicksABC : String → ℚ :=
  fun b => if b = "A" then 60 else if b = "B" then 30 else 90

/-! ### Dictionary lemmas -/

theorem dictGet_dictSet {K V : Type} [DecidableEq K] (d : List (K × V))
    (k k' : K) (v : V) :
    dictGet (dictSet d k v) k' = if k = k' then some v else dictGet d k' := by
  induction d with
  | nil => by_cases h : k = k' <;> simp [dictSet, dictGet, h]
  | cons kv rest ih =>
      obtain ⟨a, b⟩ := kv
      by_cases hak : a = k
      · subst hak
        by_cases h : a = k' <;> simp [dictSet, dictGet, h]
      · simp only [dictSet, if_neg hak, dictGet]
        by_cases h2 : a = k'
        · have hkk : k ≠ k' := fun hh => hak (h2.trans hh.symm)
          simp [h2, hkk]
        · simp [h2, ih]

theorem dictGet_eq_none {K V : Type} [DecidableEq K] (d : List (K × V))
    (k : K) (h : ∀ p ∈ d, p.1 ≠ k) : dictGet d k = none := by
  induction d with
  | nil => rfl
  | cons kv rest ih =>
      obtain ⟨a, b⟩ := kv
      have ha : a ≠ k := h (a, b) (by simp)
      simp only [dictGet, if_neg ha]
      exact ih (fun p hp => h p (by simp [hp]))

theorem assocLast_eq_none {K V : Type} [DecidableEq K] (ps : List (K × V))
    (k : K) (h : ∀ p ∈ ps, p.1 ≠ k) : assocLast ps k = none := by
  induction ps with
  | nil => rfl
  | cons kv rest ih =>
      obtain ⟨a, b⟩ := kv
      have ha : a ≠ k := h (a, b) (by simp)
      simp only [assocLast, ih (fun p hp => h p (by simp [hp])), if_neg ha]

theorem dictKeys_dictSet {K V : Type} [DecidableEq K] (d : List (K × V))
    (k : K) (v : V) :
    dictKeys (dictSet d k v) =
      if k ∈ dictKeys d then dictKeys d else dictKeys d ++ [k] := by
  induction d with
  | nil => simp [dictSet, dictKeys]
  | cons kv rest ih =>
      obtain ⟨a, b⟩ := kv
      by_cases hak : a = k
      · subst hak
        simp [dictSet, dictKeys]
      · simp only [dictSet, if_neg hak, dictKeys, List.map_cons] at ih ⊢
        rw [ih]
        have : k ∈ a :: List.map Prod.fst rest ↔ k ∈ List.map Prod.fst rest := by
          simp [List.mem_cons]
          intro hka
          exact absurd hka.symm hak
        by_cases hmem : k ∈ List.map Prod.fst rest
        · simp [hmem, this]
        · simp only [this, hmem, if_neg, if_false]
          simp [hmem]

theorem nodup_dictKeys_dictSet {K V : Type} [DecidableEq K]
    (d : List (K × V)) (k : K) (v : V) (h : (dictKeys d).Nodup) :
    (dictKeys (dictSet d k v)).Nodup := by
  rw [dictKeys_dictSet]
  by_cases hmem : k ∈ dictKeys d
  · simpa [hmem]
  · simp only [hmem, if_false]
    simp [List.nodup_append, h, hmem]

theorem assocLast_eq_dictGet {K V : Type} [DecidableEq K]
    (d : List (K × V)) (k : K) (h : (dictKeys d).Nodup) :
    assocLast d k = dictGet d k := by
  induction d with
  | nil => rfl
  | cons kv rest ih =>
      obtain ⟨a, b⟩ := kv
      simp only [dictKeys, List.map_cons, List.nodup_cons] at h
      obtain ⟨hnot, hrest⟩ := h
      by_cases hak : a = k
      · subst hak
        have : assocLast rest a = none := by
          apply assocLast_eq_none
          intro p hp hpa
          exact hnot (hpa ▸ List.mem_map_of_mem Prod.fst hp)
        simp [assocLast, dictGet, this]
      · simp only [assocLast, dictGet, if_neg hak, ih hrest]
        cases hr : dictGet rest k <;> simp [hr]

theorem dictGet_foldl_dictSet {K V : Type} [DecidableEq K]
    (ps : List (K × V)) (d0 : List (K × V)) (k : K) :
    dictGet (ps.foldl (fun d kv => dictSet d kv.1 kv.2) d0) k =
      match assocLast ps k with
      | some v => some v
      | none => dictGet d0 k := by
  induction ps generalizing d0 with
  | nil => simp [assocLast]
  | cons p rest ih =>
      obtain ⟨a, b⟩ := p
      simp only [List.foldl_cons, ih (dictSet d0 a b), assocLast]
      cases hr : assocLast rest k
      · simp only [dictGet_dictSet]
        by_cases hk : a = k <;> simp [hk]
      · simp

theorem mem_foldl_dictSet {K V : Type} [DecidableEq K]
    (ps : List (K × V)) (d0 : List (K × V)) (p : K × V)
    (h : p ∈ ps.foldl (fun d kv => dictSet d kv.1 kv.2) d0) :
    p ∈ d0 ∨ p ∈ ps := by
  induction ps generalizing d0 with
  | nil => exact Or.inl h
  | cons q rest ih =>
      obtain ⟨a, b⟩ := q
      simp only [List.foldl_cons] at h
      rcases ih (dictSet d0 a b) h with hmem | hmem
      · have : p ∈ d0 ∨ p = (a, b) := by
          clear h ih
          induction d0 with
          | nil =>
              simp [dictSet] at hmem
              exact Or.inr hmem
          | cons r d0t ihd =>
              obtain ⟨x, y⟩ := r
              by_cases hx : x = a
              · subst hx
                simp only [dictSet, if_pos rfl] at hmem
                rcases List.mem_cons.mp hmem with h1 | h1
                · exact Or.inr h1
                · exact Or.inl (List.mem_cons_of_mem _ h1)
              · simp only [dictSet, if_neg hx] at hmem
                rcases List.mem_cons.mp hmem with h1 | h1
                · exact Or.inl (h1 ▸ List.mem_cons_self _ _)
                · rcases ihd h1 with h2 | h2
                  · exact Or.inl (List.mem_cons_of_mem _ h2)
                  · exact Or.inr h2
        rcases this with h1 | h1
        · exact Or.inl h1
        · exact Or.inr (h1 ▸ List.mem_cons_self _ _)
      · exact Or.inr (List.mem_cons_of_mem _ hmem)

theorem nodup_keys_foldl_dictSet {K V : Type} [DecidableEq K]
    (ps : List (K × V)) (d0 : List (K × V)) (h : (dictKeys d0).Nodup) :
    (dictKeys (ps.foldl (fun d kv => dictSet d kv.1 kv.2) d0)).Nodup := by
  induction ps generalizing d0 with
  | nil => exact h
  | cons p rest ih =>
      obtain ⟨a, b⟩ := p
      exact ih (dictSet d0 a b) (nodup_dictKeys_dictSet d0 a b h)

/-! ### `mapM` lemmas for the `Except` monad -/

@[simp] theorem throw_eq {α : Type} (e : PyErr) :
    (throw e : Except PyErr α) = Except.error e := rfl

@[simp] theorem ok_bind {α β : Type} (x : α) (g : α → Except PyErr β) :
    (Except.ok x >>= g) = g x := rfl

@[simp] theorem error_bind {α β : Type} (e : PyErr)
    (g : α → Except PyErr β) :
    ((Except.error e : Except PyErr α) >>= g) = Except.error e := rfl

@[simp] theorem map_ok {α β : Type} (f : α → β) (x : α) :
    (f <$> (Except.ok x : Except PyErr α)) = Except.ok (f x) := rfl

@[simp] theorem map_error {α β : Type} (f : α → β) (e : PyErr) :
    (f <$> (Except.error e : Except PyErr α)) = Except.error e := rfl

theorem mapM'_ok_zip {α β : Type} (f : α → Except PyErr β) :
    ∀ (ks : List α) (rs : List β), ks.mapM' f = .ok rs →
      ∀ p ∈ ks.zip rs, f p.1 = .ok p.2 := by
  intro ks
  induction ks with
  | nil => intro rs h p hp; simp at hp
  | cons k kt ih =>
      intro rs h p hp
      simp only [List.mapM'_cons] at h
      cases hf : f k with
      | error e => simp [hf] at h
      | ok x =>
          cases hm : kt.mapM' f with
          | error e => simp [hf, hm] at h
          | ok xs =>
              simp [hf, hm] at h
              subst h
              rcases List.mem_cons.mp hp with h1 | h1
              · subst h1; exact hf
              · exact ih xs hm p h1

theorem mapM_ok_zip {α β : Type} (f : α → Except PyErr β)
    (ks : List α) (rs : List β) (h : ks.mapM f = .ok rs) :
    ∀ p ∈ ks.zip rs, f p.1 = .ok p.2 := by
  rw [← List.mapM'_eq_mapM] at h
  exact mapM'_ok_zip f ks rs h

theorem mapM'_ok_assocLast {α β : Type} [DecidableEq α]
    (f : α → Except PyErr β) :
    ∀ (ks : List α) (rs : List β), ks.mapM' f = .ok rs → ∀ b ∈ ks,
      ∃ r, f b = .ok r ∧ assocLast (ks.zip rs) b = some r := by
  intro ks
  induction ks with
  | nil => intro rs h b hb; simp at hb
  | cons k kt ih =>
      intro rs h b hb
      simp only [List.mapM'_cons] at h
      cases hf : f k with
      | error e => simp [hf] at h
      | ok x =>
          cases hm : kt.mapM' f with
          | error e => simp [hf, hm] at h
          | ok xs =>
              simp [hf, hm] at h
              subst h
              by_cases hmem : b ∈ kt
              · obtain ⟨r, hr1, hr2⟩ := ih xs hm b hmem
                refine ⟨r, hr1, ?_⟩
                have hz : (k :: kt).zip (x :: xs) = (k, x) :: kt.zip xs := rfl
                rw [hz]
                simp only [assocLast, hr2]
              · have hbk : b = k := by
                  rcases List.mem_cons.mp hb with h1 | h1
                  · exact h1
                  · exact absurd h1 hmem
                subst hbk
                refine ⟨x, hf, ?_⟩
                have hnone : assocLast (kt.zip xs) b = none := by
                  apply assocLast_eq_none
                  intro p hp hpb
                  exact hmem (hpb ▸ (List.of_mem_zip hp).1)
                have hz : (b :: kt).zip (x :: xs) = (b, x) :: kt.zip xs := rfl
                rw [hz]
                simp only [assocLast, hnone]
                simp

theorem mapM_ok_assocLast {α β : Type} [DecidableEq α]
    (f : α → Except PyErr β) (ks : List α) (rs : List β)
    (h : ks.mapM f = .ok rs) : ∀ b ∈ ks,
      ∃ r, f b = .ok r ∧ assocLast (ks.zip rs) b = some r := by
  rw [← List.mapM'_eq_mapM] at h
  exact mapM'_ok_assocLast f ks rs h

theorem mapM'_ok_of_forall {α β : Type} (f : α → Except PyErr β) :
    ∀ ks : List α, (∀ b ∈ ks, ∃ r, f b = .ok r) →
      ∃ rs, ks.mapM' f = .ok rs := by
  intro ks
  induction ks with
  | nil => intro _; exact ⟨[], rfl⟩
  | cons k kt ih =>
      intro h
      obtain ⟨x, hx⟩ := h k (by simp)
      obtain ⟨xs, hxs⟩ := ih (fun b hb => h b (List.mem_cons_of_mem _ hb))
      refine ⟨x :: xs, ?_⟩
      simp [List.mapM'_cons, hx, hxs]

theorem mapM_ok_of_forall {α β : Type} (f : α → Except PyErr β)
    (ks : List α) (h : ∀ b ∈ ks, ∃ r, f b = .ok r) :
      ∃ rs, ks.mapM f = .ok rs := by
  rw [← List.mapM'_eq_mapM]
  exact mapM'_ok_of_forall f ks h

theorem mapM_id_map {α β : Type} (f : α → Except PyErr β) (ks : List α) :
    (ks.map f).mapM id = ks.mapM f := by
  rw [← List.mapM'_eq_mapM, ← List.mapM'_eq_mapM]
  induction ks with
  | nil => rfl
  | cons k kt ih => simp [List.mapM'_cons, ih]

/-! ### Fan-in loop lemmas -/

theorem process_bitlinks_lookup (lcase : Option String) :
    ∀ (ps : List (String × Option Json)) (acc m : MetricsResult),
      process_bitlinks lcase acc ps = .ok m → ∀ b : String,
      (∀ body, assocLast ps b = some body →
        ∃ inner, bitlink_entry body lcase = .ok inner ∧
          dictGet m b = some inner)
      ∧ (assocLast ps b = none → dictGet m b = dictGet acc b) := by
  intro ps
  induction ps with
  | nil =>
      intro acc m h b
      simp only [process_bitlinks] at h
      injection h with h
      subst h
      refine ⟨fun body hbody => ?_, fun _ => rfl⟩
      simp [assocLast] at hbody
  | cons p rest ih =>
      intro acc m h b
      obtain ⟨k, body0⟩ := p
      simp only [process_bitlinks] at h
      cases he : bitlink_entry body0 lcase with
      | error e => rw [he] at h; simp at h
      | ok inner0 =>
          rw [he] at h
          simp only [ok_bind] at h
          have IH := ih (dictSet acc k inner0) m h b
          constructor
          · intro body hbody
            simp only [assocLast] at hbody
            cases hr : assocLast rest b with
            | some body' =>
                rw [hr] at hbody
                simp at hbody
                subst hbody
                exact IH.1 body' hr
            | none =>
                rw [hr] at hbody
                by_cases hk : k = b
                · simp only [if_pos hk] at hbody
                  injection hbody with hbody
                  subst hbody
                  refine ⟨inner0, he, ?_⟩
                  rw [IH.2 hr, dictGet_dictSet, if_pos hk]
                · simp [if_neg hk] at hbody
          · intro hnone
            simp only [assocLast] at hnone
            cases hr : assocLast rest b with
            | some body' => rw [hr] at hnone; simp at hnone
            | none =>
                rw [hr] at hnone
                have hk : k ≠ b := by
                  intro hkb
                  rw [if_pos hkb] at hnone
                  simp at hnone
                rw [IH.2 hr, dictGet_dictSet, if_neg hk]

theorem process_bitlinks_ok_of (lcase : Option String) :
    ∀ (ps : List (String × Option Json)) (acc : MetricsResult),
      (∀ p ∈ ps, ∃ inner, bitlink_entry p.2 lcase = .ok inner) →
      ∃ m, process_bitlinks lcase acc ps = .ok m := by
  intro ps
  induction ps with
  | nil => intro acc _; exact ⟨acc, rfl⟩
  | cons p rest ih =>
      intro acc h
      obtain ⟨k, body0⟩ := p
      obtain ⟨inner0, he⟩ := h (k, body0) (by simp)
      obtain ⟨m, hm⟩ := ih (dictSet acc k inner0)
        (fun q hq => h q (List.mem_cons_of_mem _ hq))
      refine ⟨m, ?_⟩
      simp only [process_bitlinks, he, ok_bind]
      exact hm

theorem process_bitlinks_nodup (lcase : Option String) :
    ∀ (ps : List (String × Option Json)) (acc m : MetricsResult),
      process_bitlinks lcase acc ps = .ok m → (dictKeys acc).Nodup →
      (dictKeys m).Nodup := by
  intro ps
  induction ps with
  | nil =>
      intro acc m h hn
      simp only [process_bitlinks] at h
      injection h with h
      exact h ▸ hn
  | cons p rest ih =>
      intro acc m h hn
      obtain ⟨k, body0⟩ := p
      simp only [process_bitlinks] at h
      cases he : bitlink_entry body0 lcase with
      | error e => rw [he] at h; simp at h
      | ok inner0 =>
          rw [he] at h
          simp only [ok_bind] at h
          exact ih (dictSet acc k inner0) m h
            (nodup_dictKeys_dictSet acc k inner0 hn)

/-! ### Characterization of `async_get_country_counts` on success -/

/-- When the fan-out/fan-in step returns a `MetricsResult`, each input
bitlink's entry comes from that bitlink's own response and every key of the
result is an input bitlink. -/
theorem country_counts_ok_lookup (env : Env) (order : List Nat)
    (list : List String) (country : Option String) (m : MetricsResult)
    (h : async_get_country_counts env order list country = .ok m)
    (b : String) :
    (b ∈ list → ∃ body inner, env.countryFetch b = .ok body ∧
        bitlink_entry body (country.map strLower) = .ok inner ∧
        dictGet m b = some inner)
    ∧ (b ∉ list → dictGet m b = none) := by
  unfold async_get_country_counts genMulti at h
  rw [mapM_id_map] at h
  cases hrs : list.mapM env.countryFetch with
  | error e => rw [hrs] at h; simp at h
  | ok rs =>
      rw [hrs] at h
      simp only [ok_bind] at h
      have hzip : ∀ b' : String,
          assocLast (dictFromZip list rs) b' = assocLast (list.zip rs) b' := by
        intro b'
        unfold dictFromZip
        rw [assocLast_eq_dictGet _ _
          (nodup_keys_foldl_dictSet _ _ (by simp [dictKeys]))]
        rw [dictGet_foldl_dictSet]
        cases hr : assocLast (list.zip rs) b' <;> simp [hr, dictGet]
      have HL := process_bitlinks_lookup (country.map strLower)
        (dictFromZip list rs) [] m h b
      constructor
      · intro hb
        obtain ⟨r, hr1, hr2⟩ := mapM_ok_assocLast env.countryFetch list rs hrs b hb
        obtain ⟨inner, hi1, hi2⟩ := HL.1 r (by rw [hzip b]; exact hr2)
        exact ⟨r, inner, hr1, hi1, hi2⟩
      · intro hb
        have hnone : assocLast (list.zip rs) b = none := by
          apply assocLast_eq_none
          intro p hp hpb
          exact hb (hpb ▸ (List.of_mem_zip hp).1)
        rw [HL.2 (by rw [hzip b]; exact hnone)]
        rfl

/-- When every bitlink's fetch and per-bitlink processing succeed, the
fan-out/fan-in step returns a `MetricsResult`. -/
theorem country_counts_ok_of_entries (env : Env) (order : List Nat)
    (list : List String) (country : Option String)
    (h : ∀ b ∈ list, ∃ body inner, env.countryFetch b = .ok body ∧
        bitlink_entry body (country.map strLower) = .ok inner) :
    ∃ m, async_get_country_counts env order list country = .ok m := by
  obtain ⟨rs, hrs⟩ := mapM_ok_of_forall env.countryFetch list
    (fun b hb => (h b hb).elim fun body hbody => ⟨body, hbody.elim fun _ hb2 => hb2.1⟩)
  obtain ⟨m, hm⟩ := process_bitlinks_ok_of (country.map strLower)
    (dictFromZip list rs) []
    (by
      intro p hp
      rcases mem_foldl_dictSet (list.zip rs) [] p hp with h0 | hz
      · simp at h0
      · have hf := mapM_ok_zip env.countryFetch list rs hrs p hz
        have hmem := (List.of_mem_zip hz).1
        obtain ⟨body, inner, hfb, he⟩ := h p.1 hmem
        rw [hf] at hfb
        injection hfb with hfb
        exact ⟨inner, hfb ▸ he⟩)
  refine ⟨m, ?_⟩
  unfold async_get_country_counts genMulti
  rw [mapM_id_map, hrs]
  simp only [ok_bind]
  exact hm

/-- Keys of a successful `MetricsResult` never repeat. -/
theorem country_counts_ok_nodup (env : Env) (order : List Nat)
    (list : List String) (country : Option String) (m : MetricsResult)
    (h : async_get_country_counts env order list country = .ok m) :
    (dictKeys m).Nodup := by
  unfold async_get_country_counts genMulti at h
  rw [mapM_id_map] at h
  cases hrs : list.mapM env.countryFetch with
  | error e => rw [hrs] at h; simp at h
  | ok rs =>
      rw [hrs] at h
      simp only [ok_bind] at h
      exact process_bitlinks_nodup _ _ _ _ h (by simp [dictKeys])

/-- The boolean prefix test agrees with the `<+:` relation. -/
theorem isPrefixOf_true_iff :
    ∀ (p s : List Char), p.isPrefixOf s = true ↔ p <+: s
  | [], s => by simp [List.isPrefixOf]
  | a :: p, [] => by simp [List.isPrefixOf]
  | a :: p, b :: s => by
      simp [List.isPrefixOf, isPrefixOf_true_iff p s, List.cons_prefix_cons,
        and_comm]

/-- `findSubAux` finds nothing when the pattern occurs nowhere in the
remaining characters. -/
theorem findSubAux_eq_none (pat : List Char) :
    ∀ (s : List Char) (i : Nat), ¬ pat <:+: s → findSubAux pat s i = none := by
  intro s
  induction s with
  | nil =>
      intro i h
      have hp : ¬ (pat.isPrefixOf ([] : List Char) = true) := fun hp =>
        h ((isPrefixOf_true_iff pat []).mp hp).isInfix
      simp only [findSubAux, if_neg hp]
  | cons c t ih =>
      intro i h
      have hp : ¬ (pat.isPrefixOf (c :: t) = true) := fun hp =>
        h ((isPrefixOf_true_iff pat (c :: t)).mp hp).isInfix
      simp only [findSubAux, if_neg hp]
      exact ih (i + 1) (fun hinf => h (List.infix_cons hinf))

/-- C9: for every input string not containing the scheme delimiter `'://'`,
`parse_bitlink` does not raise (it is a total function in this model) and
returns the input with its first two characters removed, because `find`
yields `-1` and `-1 + 3 = 2`; for strings of length at most two the result
is the empty string. -/
theorem c9_parse_bitlink_no_delimiter (s : String)
    (h : ¬ HTML_PREFIX_END.data <:+: s.data) :
    parse_bitlink s = ⟨s.data.drop 2⟩ ∧
      (s.data.length ≤ 2 → parse_bitlink s = "") := by
  have hfind : pyFind s HTML_PREFIX_END = -1 := by
    unfold pyFind
    rw [findSubAux_eq_none _ _ _ h]
  have hp : parse_bitlink s = ⟨s.data.drop 2⟩ := by
    show pySliceFrom s (pyFind s HTML_PREFIX_END + (HTML_PREFIX_END.length : Int)) =
      ⟨s.data.drop 2⟩
    have hl : (HTML_PREFIX_END.length : Int) = 3 := by decide
    rw [hfind, hl]
    norm_num [pySliceFrom]
    rfl
  refine ⟨hp, fun hlen2 => ?_⟩
  rw [hp]
  show String.mk (s.data.drop 2) = ""
  rw [List.drop_eq_nil_of_le hlen2]

/-- C9 witness: concrete delimiter-free inputs. -/
theorem c9_parse_bitlink_no_delimiter_witness :
    parse_bitlink "ab" = "" ∧ parse_bitlink "noscheme" = "scheme" :=
  ⟨(c9_parse_bitlink_no_delimiter "ab" (by decide)).2 (by decide),
   (c9_parse_bitlink_no_delimiter "noscheme" (by decide)).1⟩

/-- C2 counterexample: normalizing `"https://bit.ly/abc123"` does yield
`"bit.ly/abc123"`, but `urllib.parse.quote` is called with its default
`safe='/'`, so the slash is NOT percent-encoded: the encoded form is
`"bit.ly/abc123"`, not `"bit.ly%2Fabc123"`. -/
theorem c2_slash_not_percent_encoded :
    parse_bitlink "https://bit.ly/abc123" = "bit.ly/abc123" ∧
    quote "bit.ly/abc123" = "bit.ly/abc123" ∧
    quote "bit.ly/abc123" ≠ "bit.ly%2Fabc123" :=
  ⟨by decide, by decide, by decide⟩

/-- C2 amended: normalizing `"https://bit.ly/abc123"` yields
`"bit.ly/abc123"`; percent-encoding with the default safe set keeps the
slash, so the aggregation key produced by `async_get_bitlinks` is
`"bit.ly/abc123"`; characters outside the safe set are still
percent-encoded (e.g. a space becomes `%20`). -/
theorem c2_amended_aggregation_key :
    quote (parse_bitlink "https://bit.ly/abc123") = "bit.ly/abc123" ∧
    async_get_bitlinks envOneLink "g1" = .ok ["bit.ly/abc123"] ∧
    quote "bit.ly/a b" = "bit.ly/a%20b" :=
  ⟨by decide, by decide, by decide⟩

/-- C4: the value stored for a validated country entry is the exact
quotient `clicks / NUM_DAYS` (floats are modelled as exact rationals; the
code applies no rounding), `NUM_DAYS` is 30, and `clicks = 90` yields
exactly 3. -/
theorem c4_daily_average (name : String) (q : ℚ) (d : CountryDict) :
    process_metrics none d [mkCountryObj name q] =
      .ok (dictSet d (Json.str name) (q / NUM_DAYS)) ∧
    NUM_DAYS = 30 ∧
    bitlink_entry (some (mkCountryResp "US" 90)) none =
      .ok [(Json.str "US", 3)] := by
  refine ⟨rfl, rfl, ?_⟩
  have h : bitlink_entry (some (mkCountryResp "US" 90)) none =
      .ok [(Json.str "US", (90 : ℚ) / NUM_DAYS)] := rfl
  rw [h]
  norm_num [NUM_DAYS]

/-- C1 counterexample: with bitlinks `["a", "b"]` where only `"a"`'s body
fails to parse, `json.loads`'s failure is caught and `{}` substituted, but
`validate_country_response` runs OUTSIDE the `try`/`except` and raises on
`{}`; the whole fan-in step raises, so the result contains no entry for the
healthy bitlink `"b"` and the request as a whole fails. -/
theorem c1_parse_failure_fails_request :
    async_get_country_counts envParseFail [0, 1] ["a", "b"] none =
      .error (.valueError "\"metrics\" field not in data retrieved from Bitly") := by
  decide

/-- C1 amended: a metrics fetch whose payload fails parsing or validation
for any one bitlink is NOT isolated: the validation error propagates and
`async_get_country_counts` returns no `MetricsResult` at all (the bitlink is
not attached with partial data, and the other bitlinks' entries are lost). -/
theorem c1_one_bitlink_failure_aborts (env : Env) (order : List Nat)
    (list : List String) (country : Option String) (b : String)
    (body : Option Json) (e : PyErr) (hb : b ∈ list)
    (hf : env.countryFetch b = .ok body)
    (he : bitlink_entry body (country.map strLower) = .error e)
    (m : MetricsResult) :
    async_get_country_counts env order list country ≠ .ok m := by
  intro h
  obtain ⟨body', inner, hf', he', _⟩ :=
    (country_counts_ok_lookup env order list country m h b).1 hb
  rw [hf] at hf'
  injection hf' with hf'
  rw [← hf'] at he'
  rw [he] at he'
  simp at he'

/-- C1 witness: the amended theorem at the concrete failing environment. -/
theorem c1_one_bitlink_failure_aborts_witness :
    async_get_country_counts envParseFail [0, 1] ["a", "b"] none ≠ .ok [] :=
  c1_one_bitlink_failure_aborts envParseFail [0, 1] ["a", "b"] none "a" none
    (.valueError "\"metrics\" field not in data retrieved from Bitly")
    (by decide) (by decide) (by decide) []

/-- C3: for every completion order of the concurrent metric fetches, the
merged `MetricsResult` is the same (`tornado.gen.multi` returns responses
in input order), and each bitlink's entry is computed from that bitlink's
own response — pairing is by key via `zip`, not by arrival order. -/
theorem c3_fan_in_pairs_by_key (env : Env) (order order' : List Nat)
    (list : List String) (country : Option String) (m : MetricsResult)
    (h : async_get_country_counts env order list country = .ok m)
    (b : String) (hb : b ∈ list) :
    async_get_country_counts env order' list country = .ok m ∧
    ∃ body inner, env.countryFetch b = .ok body ∧
      bitlink_entry body (country.map strLower) = .ok inner ∧
      dictGet m b = some inner :=
  ⟨h, (country_counts_ok_lookup env order list country m h b).1 hb⟩

/-- C3 witness: bitlinks `["A", "B", "C"]` whose fetches complete in order
`[C, A, B]` still give each bitlink its own country data. -/
theorem c3_fan_in_pairs_by_key_witness :
    async_get_country_counts envABC [0, 1, 2] ["A", "B", "C"] none = .ok mABC ∧
    ∃ body inner, envABC.countryFetch "B" = .ok body ∧
      bitlink_entry body (Option.map strLower none) = .ok inner ∧
      dictGet mABC "B" = some inner :=
  c3_fan_in_pairs_by_key envABC [2, 0, 1] [0, 1, 2] ["A", "B", "C"] none mABC
    rfl "B" (by decide)

/-- C10: the key set of a returned `MetricsResult` is exactly the set of
distinct input bitlinks — duplicates collapse to one entry, every key maps
to a (possibly empty) dictionary, and no foreign key appears. -/
theorem c10_keys_are_distinct_inputs (env : Env) (order : List Nat)
    (list : List String) (country : Option String) (m : MetricsResult)
    (h : async_get_country_counts env order list country = .ok m) :
    (∀ b : String, (dictGet m b).isSome ↔ b ∈ list) ∧ (dictKeys m).Nodup := by
  constructor
  · intro b
    constructor
    · intro hsome
      by_contra hb
      rw [(country_counts_ok_lookup env order list country m h b).2 hb] at hsome
      simp at hsome
    · intro hb
      obtain ⟨body, inner, _, _, hm⟩ :=
        (country_counts_ok_lookup env order list country m h b).1 hb
      simp [hm]
  · exact country_counts_ok_nodup env order list country m h

/-- C10 witness: the duplicated input `["A", "B", "A"]` collapses to the
two keys A and B. -/
theorem c10_keys_are_distinct_inputs_witness :
    (∀ b : String, (dictGet mAB b).isSome ↔ b ∈ ["A", "B", "A"]) ∧
    (dictKeys mAB).Nodup :=
  c10_keys_are_distinct_inputs envABC [0, 1, 2] ["A", "B", "A"] none mAB rfl

/-- C5: with a filter, `process_metrics` keeps exactly the entries whose
name equals the filter case-insensitively (both sides lowercased) and drops
all others; with no filter every entry is kept; a kept entry is stored
under the ORIGINAL `Json.str (names o)` key (the API's casing), with value
`clicks / NUM_DAYS`. -/
theorem c5_country_filter (names : Json → String) (clicks : Json → ℚ)
    (countryFilter : String) :
    ∀ (objs : List Json) (d : CountryDict),
      (∀ o ∈ objs, pyGetItem o "value" = .ok (Json.str (names o)) ∧
          pyGetItem o "clicks" = .ok (Json.num (clicks o))) →
      process_metrics (some (strLower countryFilter)) d objs =
        .ok (objs.foldl (fun acc o =>
          if strLower countryFilter = strLower (names o)
          then dictSet acc (Json.str (names o)) (clicks o / NUM_DAYS)
          else acc) d) ∧
      process_metrics none d objs =
        .ok (objs.foldl (fun acc o =>
          dictSet acc (Json.str (names o)) (clicks o / NUM_DAYS)) d) := by
  intro objs
  induction objs with
  | nil => intro d _; exact ⟨rfl, rfl⟩
  | cons o rest ih =>
      intro d h
      obtain ⟨hv, hc⟩ := h o (by simp)
      have ihr := fun d' => ih d' (fun o' ho' => h o' (List.mem_cons_of_mem _ ho'))
      constructor
      · simp only [process_metrics, hv, hc, ok_bind, pyLower, pyDivNum,
          List.foldl_cons]
        by_cases hf : strLower countryFilter = strLower (names o)
        · rw [if_pos hf, if_pos hf]
          exact (ihr _).1
        · rw [if_neg hf, if_neg hf]
          exact (ihr _).1
      · simp only [process_metrics, hv, hc, ok_bind, pyDivNum,
          List.foldl_cons]
        exact (ihr _).2

/-- C5 witness: filter `"us"` against entries US=10 and FR=5 keeps only the
US entry under its original casing; no filter keeps both. -/
theorem c5_country_filter_witness :
    process_metrics (some (strLower "us")) []
        [mkCountryObj "US" 10, mkCountryObj "FR" 5] =
      .ok [(Json.str "US", 10 / NUM_DAYS)] ∧
    process_metrics none [] [mkCountryObj "US" 10, mkCountryObj "FR" 5] =
      .ok [(Json.str "US", 10 / NUM_DAYS), (Json.str "FR", 5 / NUM_DAYS)] :=
  c5_country_filter entryValue entryClicks "us"
    [mkCountryObj "US" 10, mkCountryObj "FR" 5] [] (by decide)

/-- `checkCountryObjs` succeeds exactly when every element contains both a
`'value'` member and a `'clicks'` member. -/
theorem checkCountryObjs_ok_iff (objs : List Json) :
    checkCountryObjs objs = .ok () ↔
      ∀ o ∈ objs, pyContains o "value" = .ok true ∧
        pyContains o "clicks" = .ok true := by
  induction objs with
  | nil => simp [checkCountryObjs]
  | cons o rest ih =>
      simp only [checkCountryObjs]
      cases hv : pyContains o "value" with
      | error e => simp [hv]
      | ok b =>
          cases b with
          | false => simp [hv]
          | true =>
              cases hc : pyContains o "clicks" with
              | error e => simp [hv, hc]
              | ok b2 =>
                  cases b2 with
                  | false => simp [hv, hc]
                  | true => simp [hv, hc, ih]

/-- C6 counterexample: a payload whose `clicks` is the STRING `"ninety"`
(not numeric) is accepted by `validate_country_response` — only the
presence of `'value'` and `'clicks'` is checked, not the type of `clicks`. -/
theorem c6_nonnumeric_clicks_accepted :
    validate_country_response (Json.obj [("metrics", Json.arr
      [Json.obj [("value", Json.str "US"), ("clicks", Json.str "ninety")]])]) =
      .ok () := by
  decide

/-- C6 amended: `validate_country_response` accepts exactly the payloads
with a `metrics` member (here an array) in which every element contains a
`'value'` member and a `'clicks'` member; it raises the metrics-data
`ValueError` at the first violating element, and performs NO numeric check
on `clicks`. -/
theorem c6_amended_no_numeric_check (kvs : List (String × Json))
    (objs : List Json)
    (h1 : pyContains (Json.obj kvs) "metrics" = .ok true)
    (h2 : pyGetItem (Json.obj kvs) "metrics" = .ok (Json.arr objs)) :
    validate_country_response (Json.obj kvs) = .ok () ↔
      ∀ o ∈ objs, pyContains o "value" = .ok true ∧
        pyContains o "clicks" = .ok true := by
  unfold validate_country_response
  simp [h1, h2, pyIter, checkCountryObjs_ok_iff]

/-- C6 witness: the amended validator characterization at a concrete
payload. -/
theorem c6_amended_no_numeric_check_witness :
    validate_country_response (Json.obj [("metrics", Json.arr
        [mkCountryObj "US" 60])]) = .ok () ↔
      ∀ o ∈ [mkCountryObj "US" 60], pyContains o "value" = .ok true ∧
        pyContains o "clicks" = .ok true :=
  c6_amended_no_numeric_check [("metrics", Json.arr [mkCountryObj "US" 60])]
    [mkCountryObj "US" 60] (by decide) (by decide)

/-- C7: a failure while resolving the group id (stage 1) or the group's
link list (stage 2, including a single malformed link record) aborts
`async_get_metrics` with that typed error — no partial `MetricsResult` is
produced. -/
theorem c7_stage_failures_abort :
    (∀ (env : Env) (order : List Nat) (country : Option String) (e : PyErr),
      async_get_group_guid env = .error e →
      async_get_metrics env order country = .error e) ∧
    (∀ (env : Env) (order : List Nat) (country : Option String) (g : String)
      (e : PyErr),
      async_get_group_guid env = .ok g →
      async_get_bitlinks env g = .error e →
      async_get_metrics env order country = .error e) := by
  constructor
  · intro env order country e h
    unfold async_get_metrics
    rw [h]
    rfl
  · intro env order country g e h1 h2
    unfold async_get_metrics
    rw [h1]
    simp only [ok_bind]
    rw [h2]
    rfl

/-- A single-entry response's per-bitlink processing, symbolically. -/
theorem bitlink_entry_single (n : String) (c : ℚ) :
    bitlink_entry (some (mkCountryResp n c)) none =
      .ok [(Json.str n, c / NUM_DAYS)] := rfl

/-- One iteration of the historical outer loop on a single-entry response. -/
theorem old_loop_step (env : Env) (bl : String) (acc : MetricsResult)
    (rest : List String) (n : String) (c : ℚ)
    (hf : env.countryFetch bl = .ok (some (mkCountryResp n c))) :
    old_country_counts_loop env acc (bl :: rest) =
      old_country_counts_loop env
        (dictSet acc bl [(Json.str n, c / NUM_DAYS)]) rest := by
  simp only [old_country_counts_loop, hf, ok_bind]
  rfl

/-- Lookup characterization of the historical revision when every response
is a single-entry response determined by the bitlink. -/
theorem old_loop_lookup (env : Env) (name : String → String)
    (q : String → ℚ) :
    ∀ (list : List String) (acc : MetricsResult),
      (∀ b ∈ list,
        env.countryFetch b = .ok (some (mkCountryResp (name b) (q b)))) →
      ∃ m, old_country_counts_loop env acc list = .ok m ∧
        ∀ k, dictGet m k =
          if k ∈ list then some [(Json.str (name k), q k / NUM_DAYS)]
          else dictGet acc k := by
  intro list
  induction list with
  | nil =>
      intro acc _
      exact ⟨acc, rfl, fun k => by simp⟩
  | cons bl rest ih =>
      intro acc h
      obtain ⟨m, hm, hlook⟩ :=
        ih (dictSet acc bl [(Json.str (name bl), q bl / NUM_DAYS)])
          (fun b hb => h b (List.mem_cons_of_mem _ hb))
      refine ⟨m, ?_, ?_⟩
      · rw [old_loop_step env bl acc rest (name bl) (q bl) (h bl (by simp))]
        exact hm
      · intro k
        rw [hlook k]
        by_cases hkr : k ∈ rest
        · simp [hkr, List.mem_cons]
        · by_cases hkb : k = bl
          · subst hkb
            simp [hkr, dictGet_dictSet]
          · have hbk : ¬ bl = k := fun hh => hkb hh.symm
            simp [hkr, hkb, hbk, dictGet_dictSet, List.mem_cons]

/-- Lookup characterization of the current revision (no filter) when every
response is a single-entry response determined by the bitlink. -/
theorem new_counts_lookup_single (env : Env) (order : List Nat)
    (name : String → String) (q : String → ℚ) (list : List String)
    (h : ∀ b ∈ list,
      env.countryFetch b = .ok (some (mkCountryResp (name b) (q b)))) :
    ∃ m, async_get_country_counts env order list none = .ok m ∧
      ∀ k, dictGet m k =
        if k ∈ list then some [(Json.str (name k), q k / NUM_DAYS)]
        else none := by
  obtain ⟨m, hm⟩ := country_counts_ok_of_entries env order list none
    (fun b hb => ⟨some (mkCountryResp (name b) (q b)),
      [(Json.str (name b), q b / NUM_DAYS)], h b hb,
      bitlink_entry_single _ _⟩)
  refine ⟨m, hm, fun k => ?_⟩
  by_cases hk : k ∈ list
  · obtain ⟨body, inner, hf, he, hmk⟩ :=
      (country_counts_ok_lookup env order list none m hm k).1 hk
    rw [h k hk] at hf
    injection hf with hf
    rw [← hf] at he
    have hs : Option.map strLower (none : Option String) = none := rfl
    rw [hs, bitlink_entry_single (name k) (q k)] at he
    injection he with he
    rw [hmk, ← he, if_pos hk]
  · rw [(country_counts_ok_lookup env order list none m hm k).2 hk,
      if_neg hk]

/-- C8 counterexample: with one bitlink whose response carries two country
entries (US=60 then FR=30), the historical revision keeps only the LAST
entry (it re-creates the bitlink's dict on every metrics iteration) while
the current revision keeps both — the two revisions are not equivalent. -/
theorem c8_revisions_not_equivalent :
    old_async_get_country_counts envTwoEntries ["bl"] =
      .ok [("bl", [(Json.str "FR", 30 / NUM_DAYS)])] ∧
    async_get_country_counts envTwoEntries [0] ["bl"] none =
      .ok [("bl", [(Json.str "US", 60 / NUM_DAYS),
                   (Json.str "FR", 30 / NUM_DAYS)])] ∧
    ([("bl", [(Json.str "FR", 30 / NUM_DAYS)])] : MetricsResult) ≠
      [("bl", [(Json.str "US", 60 / NUM_DAYS),
               (Json.str "FR", 30 / NUM_DAYS)])] := by
  refine ⟨rfl, rfl, ?_⟩
  intro hcontra
  simp at hcontra

/-- C8 amended: the two revisions agree (same `MetricsResult` lookups) on
every input list and environment in which each bitlink's metrics response
validates AND carries exactly one country entry for that bitlink; they
differ when a response carries several entries (the historical revision
keeps only the last) or none (it omits the bitlink, the current one keeps
an empty dict). -/
theorem c8_amended_equiv_single_entry (env : Env) (order : List Nat)
    (list : List String) (name : String → String) (q : String → ℚ)
    (h : ∀ b ∈ list,
      env.countryFetch b = .ok (some (mkCountryResp (name b) (q b)))) :
    ∃ mOld mNew, old_async_get_country_counts env list = .ok mOld ∧
      async_get_country_counts env order list none = .ok mNew ∧
      ∀ k, dictGet mOld k = dictGet mNew k := by
  obtain ⟨mOld, hOld, hOldLook⟩ := old_loop_lookup env name q list [] h
  obtain ⟨mNew, hNew, hNewLook⟩ :=
    new_counts_lookup_single env order name q list h
  refine ⟨mOld, mNew, hOld, hNew, fun k => ?_⟩
  rw [hOldLook k, hNewLook k]
  simp [dictGet]

/-- C8 witness: the amended equivalence at a concrete single-entry
environment. -/
theorem c8_amended_equiv_single_entry_witness :
    ∃ mOld mNew, old_async_get_country_counts envABC ["A", "B"] = .ok mOld ∧
      async_get_country_counts envABC [1, 0] ["A", "B"] none = .ok mNew ∧
      ∀ k, dictGet mOld k = dictGet mNew k :=
  c8_amended_equiv_single_entry envABC [1, 0] ["A", "B"] nameABC clicksABC
    (by decide)

/-- C7 witness: a guid-less user response aborts with the guid
`ValueError`; a malformed link record (numeric `link`) aborts with the
link `TypeError`. -/
theorem c7_stage_failures_abort_witness :
    async_get_metrics envBadGuid [] none =
      .error (.valueError "\"default_group_guid\" not in data retrieved from Bitly") ∧
    async_get_metrics envBadLink [] none =
      .error (.typeError "\"link\" field data type from Bitly is incorrect") :=
  ⟨c7_stage_failures_abort.1 envBadGuid [] none
      (.valueError "\"default_group_guid\" not in data retrieved from Bitly")
      (by decide),
   c7_stage_failures_abort.2 envBadLink [] none "g1"
      (.typeError "\"link\" field data type from Bitly is incorrect")
      (by decide) (by decide)⟩

end Bitly
